import Mathlib

/-!
Verification of the observable-generation pipeline of the `idcovid19`
SEIR-like epidemic model (`model_seirx.py`).

The Python code is shallowly embedded over `ℚ` (for the rate-matrix,
eigen-readout and sample post-processing code, which is exact rational
arithmetic on the inputs we study) and over `ℝ` (for the logarithmic
regression of the empirical estimator).  The differentiable
eigendecomposition `utils.eig` is not part of the sources under
verification; every result that depends on it is parametrized over the
eigendecomposition output, constrained only by the contract stated in the
specification (eigenvalues sorted ascending, one eigenvalue per matrix
dimension, all eigenvalues reported).
-/

/-- Parameter vector of the base model (`Model.__init__`): all five
parameters are positive reals drawn from uniform priors. -/
structure Params where
  t_incub : ℚ
  inf_rate : ℚ
  surv_rate : ℚ
  t_dec : ℚ
  t_rec : ℚ
deriving DecidableEq

/-- Parameter vector of the extended model (`Model2.__init__`): nine
parameters. -/
structure Params2 where
  t_incub : ℚ
  inf_rate_unconf : ℚ
  inf_rate_conf : ℚ
  surv_rate : ℚ
  t_conf : ℚ
  t_dec_conf : ℚ
  t_rec_conf : ℚ
  t_dec_unconf : ℚ
  t_rec_unconf : ℚ
deriving DecidableEq

/-- All five base parameters strictly positive (the prior support). -/
def Params.allPos (p : Params) : Prop :=
  0 < p.t_incub ∧ 0 < p.inf_rate ∧ 0 < p.surv_rate ∧ 0 < p.t_dec ∧ 0 < p.t_rec

instance (p : Params) : Decidable p.allPos := by
  unfold Params.allPos; infer_instance

/-- All nine extended parameters strictly positive. -/
def Params2.allPos (p : Params2) : Prop :=
  0 < p.t_incub ∧ 0 < p.inf_rate_unconf ∧ 0 < p.inf_rate_conf ∧ 0 < p.surv_rate ∧
  0 < p.t_conf ∧ 0 < p.t_dec_conf ∧ 0 < p.t_rec_conf ∧ 0 < p.t_dec_unconf ∧ 0 < p.t_rec_unconf

instance (p : Params2) : Decidable p.allPos := by
  unfold Params2.allPos; infer_instance

namespace Model

/-- `Model.paramnames = list(self.prior.keys())`. -/
def paramnames : List String :=
  ["t_incub", "inf_rate", "surv_rate", "t_dec", "t_rec"]

/-- `Model.vecnames`: compartment name to row/column index. -/
def vecnames : List (String × Fin 5) :=
  [("exposed", 0), ("infectious_dec", 1), ("infectious_rec", 2), ("dec", 3), ("rec", 4)]

/-- `self.nparams = len(self.paramnames)`. -/
def nparams : ℕ := paramnames.length

/-- Number of compartments of the base variant (`len(self.vecnames)`). -/
def ncompartments : ℕ := vecnames.length

/-- `Model.construct_jac`: the 5x5 rate matrix.  The Python code allocates
`torch.zeros(nparams, nparams)` with `nparams = 5` and sets the nine
nonzero entries; the rows below are exactly the resulting matrix (they
also match the commented-out `np.asarray` literal in the source). -/
def construct_jac (p : Params) : Matrix (Fin 5) (Fin 5) ℚ :=
  Matrix.of
    ![![-1 / p.t_incub, p.inf_rate, p.inf_rate, 0, 0],
      ![(1 - p.surv_rate) / p.t_incub, -1 / p.t_dec, 0, 0, 0],
      ![p.surv_rate / p.t_incub, 0, -1 / p.t_rec, 0, 0],
      ![0, 1 / p.t_dec, 0, 0, 0],
      ![0, 0, 1 / p.t_rec, 0, 0]]

end Model

namespace Model2

/-- `Model2.paramnames = list(self.prior.keys())`: nine parameter names. -/
def paramnames : List String :=
  ["t_incub", "inf_rate_unconf", "inf_rate_conf", "surv_rate", "t_conf",
   "t_dec_conf", "t_rec_conf", "t_dec_unconf", "t_rec_unconf"]

/-- `Model2.vecnames`: the seven compartments of the extended variant,
indexing into the (9-dimensional) state vector of the code. -/
def vecnames : List (String × Fin 9) :=
  [("exposed", 0), ("infectious_dec_unconf", 1), ("infectious_rec_unconf", 2),
   ("infectious_dec_conf", 3), ("infectious_rec_conf", 4), ("dec_conf", 5), ("rec_conf", 6)]

/-- `self.nparams = len(self.paramnames)` (nine for `Model2`). -/
def nparams : ℕ := paramnames.length

/-- Number of compartments of the extended variant (`len(self.vecnames)`). -/
def ncompartments : ℕ := vecnames.length

/-- `Model2.construct_jac`: the code allocates
`torch.zeros(nparams, nparams)` with `nparams = 9` (the number of
parameters, not of compartments) and sets fifteen entries, all with row
and column indices at most 6; rows and columns 7 and 8 therefore stay
identically zero. -/
def construct_jac (p : Params2) : Matrix (Fin 9) (Fin 9) ℚ :=
  Matrix.of
    ![![-1 / p.t_incub, p.inf_rate_unconf, p.inf_rate_unconf, p.inf_rate_conf,
        p.inf_rate_conf, 0, 0, 0, 0],
      ![(1 - p.surv_rate) / p.t_incub, -1 / p.t_dec_unconf - 1 / p.t_conf, 0, 0, 0, 0, 0, 0, 0],
      ![p.surv_rate / p.t_incub, 0, -1 / p.t_rec_unconf - 1 / p.t_conf, 0, 0, 0, 0, 0, 0],
      ![0, 1 / p.t_conf, 0, -1 / p.t_dec_conf, 0, 0, 0, 0, 0],
      ![0, 0, 1 / p.t_conf, 0, -1 / p.t_rec_conf, 0, 0, 0, 0],
      ![0, 0, 0, 1 / p.t_dec_conf, 0, 0, 0, 0, 0],
      ![0, 0, 0, 0, 1 / p.t_rec_conf, 0, 0, 0, 0],
      ![0, 0, 0, 0, 0, 0, 0, 0, 0],
      ![0, 0, 0, 0, 0, 0, 0, 0, 0]]

end Model2

/-- The all-ones base parameter vector, a point inside the prior support
used as a concrete probe. -/
def onesParams : Params := ⟨1, 1, 1, 1, 1⟩

/-- The all-ones extended parameter vector. -/
def onesParams2 : Params2 := ⟨1, 1, 1, 1, 1, 1, 1, 1, 1⟩

/-- C2: the base matrix is `nparams x nparams` with `nparams = 5 =
ncompartments`, while the extended matrix is `nparams x nparams` with
`nparams = 9 ≠ 7 = ncompartments`. -/
theorem construct_jac_dims :
    Model.nparams = 5 ∧ Model.ncompartments = 5 ∧ Model.nparams = Model.ncompartments ∧
    Model2.nparams = 9 ∧ Model2.ncompartments = 7 ∧ Model2.nparams ≠ Model2.ncompartments := by
  decide

/-- Expansion of a sum over `Fin 9` into its nine terms. -/
theorem sum_fin_nine (f : Fin 9 → ℚ) :
    ∑ i, f i = f 0 + f 1 + f 2 + f 3 + f 4 + f 5 + f 6 + f 7 + f 8 := by
  rw [Fin.sum_univ_castSucc, Fin.sum_univ_eight]
  rfl

/-- C1 counterexample: at the strictly positive parameter vector with all
parameters equal to 1, the column of the `infectious_dec` compartment of
the base rate matrix sums to `inf_rate = 1 > 0`, so not every column sums
to at most 0. -/
theorem construct_jac_colsum_cex :
    onesParams.allPos ∧ ¬ (∑ i, Model.construct_jac onesParams i 1 ≤ 0) := by
  refine ⟨by decide, ?_⟩
  rw [Fin.sum_univ_five]
  show ¬ ((1 : ℚ) + -1 / 1 + 0 + 1 / 1 + 0 ≤ 0)
  norm_num

/-- C1 (amended): for strictly positive parameters, the `exposed` column
and the terminal columns of both rate matrices sum to exactly 0, but the
infectious columns do not sum to `≤ 0`: in the base variant they sum to
`inf_rate > 0`; in the extended variant the confirmed infectious columns
sum to `inf_rate_conf > 0` and the unconfirmed infectious columns sum to
`inf_rate_unconf - 1/t_dec_unconf` resp. `inf_rate_unconf - 1/t_rec_unconf`
(of either sign). -/
theorem construct_jac_column_sums (p : Params) (hp : p.allPos)
    (q : Params2) (hq : q.allPos) :
    (∑ i, Model.construct_jac p i 0 = 0) ∧
    (∑ i, Model.construct_jac p i 1 = p.inf_rate) ∧
    (∑ i, Model.construct_jac p i 2 = p.inf_rate) ∧
    (∑ i, Model.construct_jac p i 3 = 0) ∧
    (∑ i, Model.construct_jac p i 4 = 0) ∧
    0 < p.inf_rate ∧
    (∑ i, Model2.construct_jac q i 0 = 0) ∧
    (∑ i, Model2.construct_jac q i 1 = q.inf_rate_unconf - 1 / q.t_dec_unconf) ∧
    (∑ i, Model2.construct_jac q i 2 = q.inf_rate_unconf - 1 / q.t_rec_unconf) ∧
    (∑ i, Model2.construct_jac q i 3 = q.inf_rate_conf) ∧
    (∑ i, Model2.construct_jac q i 4 = q.inf_rate_conf) ∧
    (∑ i, Model2.construct_jac q i 5 = 0) ∧
    (∑ i, Model2.construct_jac q i 6 = 0) ∧
    (∑ i, Model2.construct_jac q i 7 = 0) ∧
    (∑ i, Model2.construct_jac q i 8 = 0) ∧
    0 < q.inf_rate_conf := by
  obtain ⟨h1, h2, h3, h4, h5⟩ := hp
  obtain ⟨g1, g2, g3, g4, g5, g6, g7, g8, g9⟩ := hq
  refine ⟨?_, ?_, ?_, ?_, ?_, h2, ?_, ?_, ?_, ?_, ?_, ?_, ?_, ?_, ?_, g3⟩
  · rw [Fin.sum_univ_five]
    show -1 / p.t_incub + (1 - p.surv_rate) / p.t_incub + p.surv_rate / p.t_incub + 0 + 0 = 0
    field_simp
    ring
  · rw [Fin.sum_univ_five]
    show p.inf_rate + -1 / p.t_dec + 0 + 1 / p.t_dec + 0 = p.inf_rate
    ring
  · rw [Fin.sum_univ_five]
    show p.inf_rate + 0 + -1 / p.t_rec + 0 + 1 / p.t_rec = p.inf_rate
    ring
  · rw [Fin.sum_univ_five]
    show (0 : ℚ) + 0 + 0 + 0 + 0 = 0
    norm_num
  · rw [Fin.sum_univ_five]
    show (0 : ℚ) + 0 + 0 + 0 + 0 = 0
    norm_num
  · rw [sum_fin_nine]
    show -1 / q.t_incub + (1 - q.surv_rate) / q.t_incub + q.surv_rate / q.t_incub +
      0 + 0 + 0 + 0 + 0 + 0 = 0
    field_simp
    ring
  · rw [sum_fin_nine]
    show q.inf_rate_unconf + (-1 / q.t_dec_unconf - 1 / q.t_conf) + 0 + 1 / q.t_conf +
      0 + 0 + 0 + 0 + 0 = q.inf_rate_unconf - 1 / q.t_dec_unconf
    ring
  · rw [sum_fin_nine]
    show q.inf_rate_unconf + 0 + (-1 / q.t_rec_unconf - 1 / q.t_conf) + 0 + 1 / q.t_conf +
      0 + 0 + 0 + 0 = q.inf_rate_unconf - 1 / q.t_rec_unconf
    ring
  · rw [sum_fin_nine]
    show q.inf_rate_conf + 0 + 0 + -1 / q.t_dec_conf + 0 + 1 / q.t_dec_conf + 0 + 0 + 0 =
      q.inf_rate_conf
    ring
  · rw [sum_fin_nine]
    show q.inf_rate_conf + 0 + 0 + 0 + -1 / q.t_rec_conf + 0 + 1 / q.t_rec_conf + 0 + 0 =
      q.inf_rate_conf
    ring
  · rw [sum_fin_nine]
    show (0 : ℚ) + 0 + 0 + 0 + 0 + 0 + 0 + 0 + 0 = 0
    norm_num
  · rw [sum_fin_nine]
    show (0 : ℚ) + 0 + 0 + 0 + 0 + 0 + 0 + 0 + 0 = 0
    norm_num
  · rw [sum_fin_nine]
    show (0 : ℚ) + 0 + 0 + 0 + 0 + 0 + 0 + 0 + 0 = 0
    norm_num
  · rw [sum_fin_nine]
    show (0 : ℚ) + 0 + 0 + 0 + 0 + 0 + 0 + 0 + 0 = 0
    norm_num

/-- Witness for the amended C1 theorem at the all-ones parameter vectors. -/
theorem construct_jac_column_sums_witness :
    onesParams.allPos ∧ onesParams2.allPos ∧
      ∑ i, Model.construct_jac onesParams i 1 = onesParams.inf_rate :=
  ⟨by decide, by decide,
    (construct_jac_column_sums onesParams (by decide) onesParams2 (by decide)).2.1⟩

/-- C3 counterexample: at the all-ones parameter vector (strictly positive
with `surv_rate ≤ 1`) the diagonal entry of the terminal `dec` compartment
of the base rate matrix is 0, not negative. -/
theorem construct_jac_diag_cex :
    onesParams.allPos ∧ onesParams.surv_rate ≤ 1 ∧
      ¬ (Model.construct_jac onesParams 3 3 < 0) := by
  refine ⟨by decide, by norm_num [onesParams], ?_⟩
  show ¬ ((0 : ℚ) < 0)
  norm_num

set_option maxHeartbeats 2000000 in
/-- C3 (amended): for strictly positive parameters with `surv_rate ≤ 1`,
every off-diagonal entry of both rate matrices is non-negative; the
diagonal entries of the transient compartments (`exposed` and the
infectious compartments) are strictly negative, while the diagonal entries
of the terminal compartments (and of the two zero-padding rows of the
extended variant) are exactly 0 — not negative. -/
theorem construct_jac_sign_pattern (p : Params) (hp : p.allPos) (hs : p.surv_rate ≤ 1)
    (q : Params2) (hq : q.allPos) (hs2 : q.surv_rate ≤ 1) :
    (∀ i j : Fin 5, i ≠ j → 0 ≤ Model.construct_jac p i j) ∧
    Model.construct_jac p 0 0 < 0 ∧
    Model.construct_jac p 1 1 < 0 ∧
    Model.construct_jac p 2 2 < 0 ∧
    Model.construct_jac p 3 3 = 0 ∧
    Model.construct_jac p 4 4 = 0 ∧
    (∀ i j : Fin 9, i ≠ j → 0 ≤ Model2.construct_jac q i j) ∧
    Model2.construct_jac q 0 0 < 0 ∧
    Model2.construct_jac q 1 1 < 0 ∧
    Model2.construct_jac q 2 2 < 0 ∧
    Model2.construct_jac q 3 3 < 0 ∧
    Model2.construct_jac q 4 4 < 0 ∧
    Model2.construct_jac q 5 5 = 0 ∧
    Model2.construct_jac q 6 6 = 0 ∧
    Model2.construct_jac q 7 7 = 0 ∧
    Model2.construct_jac q 8 8 = 0 := by
  obtain ⟨h1, h2, h3, h4, h5⟩ := hp
  obtain ⟨g1, g2, g3, g4, g5, g6, g7, g8, g9⟩ := hq
  have hdu : 0 < 1 / q.t_dec_unconf := by positivity
  have hru : 0 < 1 / q.t_rec_unconf := by positivity
  have hcf : 0 < 1 / q.t_conf := by positivity
  refine ⟨?_, ?_, ?_, ?_, rfl, rfl, ?_, ?_, ?_, ?_, ?_, ?_, rfl, rfl, rfl, rfl⟩
  · intro i j hij
    fin_cases i <;> fin_cases j <;>
      first
        | exact absurd rfl hij
        | exact le_refl 0
        | (simp only [Model.construct_jac, Matrix.of_apply, Matrix.cons_val', Matrix.cons_val_zero,
            Matrix.cons_val_one, Matrix.head_cons, Matrix.head_fin_const, Matrix.cons_val_fin_one,
            Matrix.vecHead, Matrix.vecTail, Function.comp_apply]
           first
             | positivity
             | exact div_nonneg (by linarith) (by linarith))
  · show -1 / p.t_incub < 0
    exact div_neg_of_neg_of_pos (by norm_num) h1
  · show -1 / p.t_dec < 0
    exact div_neg_of_neg_of_pos (by norm_num) h4
  · show -1 / p.t_rec < 0
    exact div_neg_of_neg_of_pos (by norm_num) h5
  · intro i j hij
    fin_cases i <;> fin_cases j <;>
      first
        | exact absurd rfl hij
        | exact le_refl 0
        | (simp only [Model2.construct_jac, Matrix.of_apply, Matrix.cons_val', Matrix.cons_val_zero,
            Matrix.cons_val_one, Matrix.head_cons, Matrix.head_fin_const, Matrix.cons_val_fin_one,
            Matrix.vecHead, Matrix.vecTail, Function.comp_apply]
           first
             | positivity
             | exact div_nonneg (by linarith) (by linarith))
  · show -1 / q.t_incub < 0
    exact div_neg_of_neg_of_pos (by norm_num) g1
  · show -1 / q.t_dec_unconf - 1 / q.t_conf < 0
    rw [neg_div]
    linarith
  · show -1 / q.t_rec_unconf - 1 / q.t_conf < 0
    rw [neg_div]
    linarith
  · show -1 / q.t_dec_conf < 0
    exact div_neg_of_neg_of_pos (by norm_num) g6
  · show -1 / q.t_rec_conf < 0
    exact div_neg_of_neg_of_pos (by norm_num) g7

/-- Witness for the amended C3 theorem at the all-ones parameter vectors. -/
theorem construct_jac_sign_pattern_witness :
    Model.construct_jac onesParams 3 3 = 0 ∧ Model2.construct_jac onesParams2 8 8 = 0 :=
  ⟨(construct_jac_sign_pattern onesParams (by decide) (by norm_num [onesParams])
      onesParams2 (by decide) (by norm_num [onesParams2])).2.2.2.2.1,
   (construct_jac_sign_pattern onesParams (by decide) (by norm_num [onesParams])
      onesParams2 (by decide) (by norm_num [onesParams2])).2.2.2.2.2.2.2.2.2.2.2.2.2.2.2⟩

/-- `torch.sign` on rationals: `1` for positive, `-1` for negative, `0` for zero. -/
def torchSign (x : ℚ) : ℚ :=
  if 0 < x then 1 else if x < 0 then -1 else 0

/-- The sign-fixed dominant eigenvector
`max_eigvecs = eigvecs[:,-1] * torch.sign(eigvecs[-1,-1])`, shared verbatim
by `Model.get_simobservable` and `Model2.get_simobservable`. -/
def maxEigvecs {n : ℕ} (eigvecs : Matrix (Fin (n + 1)) (Fin (n + 1)) ℚ) : Fin (n + 1) → ℚ :=
  fun i => eigvecs i (Fin.last n) * torchSign (eigvecs (Fin.last n) (Fin.last n))

/-- `Model.get_simobservable`, parametrized over the output of the
differentiable eigendecomposition `utils.eig` (external to the verified
sources): given the pair `(eigvals, eigvecs)` that `eig.apply` returns on
the rate matrix, the code reads off
`(eigvals[-1], mev[3]/mev[4], mev[3]/(mev[2]+mev[1]))` where `mev` is the
sign-fixed dominant eigenvector and `3, 4, 2, 1` are the `vecnames`
indices of `dec`, `rec`, `infectious_rec`, `infectious_dec`. -/
def Model.get_simobservable
    (eigF : Matrix (Fin 5) (Fin 5) ℚ → (Fin 5 → ℚ) × Matrix (Fin 5) (Fin 5) ℚ)
    (p : Params) : ℚ × ℚ × ℚ :=
  let jac := Model.construct_jac p
  let eigvals := (eigF jac).1
  let mev := maxEigvecs (eigF jac).2
  (eigvals (Fin.last 4), mev 3 / mev 4, mev 3 / (mev 2 + mev 1))

/-- `Model2.get_simobservable`: same readout on the (9x9) extended matrix,
with `vecnames` indices `5, 6, 3, 4` of `dec_conf`, `rec_conf`,
`infectious_dec_conf`, `infectious_rec_conf`. -/
def Model2.get_simobservable
    (eigF : Matrix (Fin 9) (Fin 9) ℚ → (Fin 9 → ℚ) × Matrix (Fin 9) (Fin 9) ℚ)
    (p : Params2) : ℚ × ℚ × ℚ :=
  let jac := Model2.construct_jac p
  let eigvals := (eigF jac).1
  let mev := maxEigvecs (eigF jac).2
  (eigvals (Fin.last 8), mev 5 / mev 6, mev 5 / (mev 3 + mev 4))

/-- The observable triple of the base variant as the specification words
it: the last eigenvalue of the ascending-sorted eigendecomposition, then
`v[dec]/v[rec]` and `v[dec]/(v[infectious_rec]+v[infectious_dec])`, where
`v` is the dominant (last-column) eigenvector rescaled by the sign of its
own last coordinate and the compartment indices come from the `vecnames`
map. -/
def specObservable (eigvals : Fin 5 → ℚ) (eigvecs : Matrix (Fin 5) (Fin 5) ℚ) : ℚ × ℚ × ℚ :=
  let v : Fin 5 → ℚ := fun i => eigvecs i (Fin.last 4) * torchSign (eigvecs (Fin.last 4) (Fin.last 4))
  let dIdx : Fin 5 := (Model.vecnames.lookup "dec").getD 0
  let rIdx : Fin 5 := (Model.vecnames.lookup "rec").getD 0
  let irIdx : Fin 5 := (Model.vecnames.lookup "infectious_rec").getD 0
  let idIdx : Fin 5 := (Model.vecnames.lookup "infectious_dec").getD 0
  (eigvals (Fin.last 4), v dIdx / v rIdx, v dIdx / (v irIdx + v idIdx))

/-- The observable triple of the extended variant as the specification
words it: only the confirmed death-track and recovery-track compartments
enter the two ratios. -/
def specObservable2 (eigvals : Fin 9 → ℚ) (eigvecs : Matrix (Fin 9) (Fin 9) ℚ) : ℚ × ℚ × ℚ :=
  let v : Fin 9 → ℚ := fun i => eigvecs i (Fin.last 8) * torchSign (eigvecs (Fin.last 8) (Fin.last 8))
  let dIdx : Fin 9 := (Model2.vecnames.lookup "dec_conf").getD 0
  let rIdx : Fin 9 := (Model2.vecnames.lookup "rec_conf").getD 0
  let idIdx : Fin 9 := (Model2.vecnames.lookup "infectious_dec_conf").getD 0
  let irIdx : Fin 9 := (Model2.vecnames.lookup "infectious_rec_conf").getD 0
  (eigvals (Fin.last 8), v dIdx / v rIdx, v dIdx / (v idIdx + v irIdx))

/-- Rescaling any rational by its own `torch.sign` is non-negative. -/
theorem mul_torchSign_self_nonneg (x : ℚ) : 0 ≤ x * torchSign x := by
  unfold torchSign
  split_ifs with h1 h2
  · nlinarith
  · nlinarith
  · nlinarith

/-- C4: in both variants, `get_simobservable` returns exactly the triple
the specification describes, for every eigendecomposition output; and the
sign-fixing indeed makes the last coordinate of the rescaled dominant
eigenvector non-negative. -/
theorem get_simobservable_spec
    (eigF : Matrix (Fin 5) (Fin 5) ℚ → (Fin 5 → ℚ) × Matrix (Fin 5) (Fin 5) ℚ)
    (p : Params)
    (eigF2 : Matrix (Fin 9) (Fin 9) ℚ → (Fin 9 → ℚ) × Matrix (Fin 9) (Fin 9) ℚ)
    (q : Params2) :
    Model.get_simobservable eigF p =
      specObservable (eigF (Model.construct_jac p)).1 (eigF (Model.construct_jac p)).2 ∧
    0 ≤ maxEigvecs (eigF (Model.construct_jac p)).2 (Fin.last 4) ∧
    Model2.get_simobservable eigF2 q =
      specObservable2 (eigF2 (Model2.construct_jac q)).1 (eigF2 (Model2.construct_jac q)).2 ∧
    0 ≤ maxEigvecs (eigF2 (Model2.construct_jac q)).2 (Fin.last 8) := by
  refine ⟨rfl, ?_, rfl, ?_⟩
  · exact mul_torchSign_self_nonneg _
  · exact mul_torchSign_self_nonneg _

/-- C9: if the dominant (last-column) eigenvector returned by the
eigendecomposition has last coordinate exactly 0, the sign-fixing
multiplies the eigenvector by `sign(0) = 0`: the rescaled eigenvector is
identically zero, both ratio observables of both variants take the form
`0 / 0` (numerator and denominator both 0), and the sign-fixing only
yields a non-negative — not strictly positive — last coordinate. -/
theorem sign_fix_zero_last
    (eigF : Matrix (Fin 5) (Fin 5) ℚ → (Fin 5 → ℚ) × Matrix (Fin 5) (Fin 5) ℚ)
    (p : Params)
    (h : (eigF (Model.construct_jac p)).2 (Fin.last 4) (Fin.last 4) = 0)
    (eigF2 : Matrix (Fin 9) (Fin 9) ℚ → (Fin 9 → ℚ) × Matrix (Fin 9) (Fin 9) ℚ)
    (q : Params2)
    (h2 : (eigF2 (Model2.construct_jac q)).2 (Fin.last 8) (Fin.last 8) = 0) :
    maxEigvecs (eigF (Model.construct_jac p)).2 = 0 ∧
    (Model.get_simobservable eigF p).2.1 = 0 / 0 ∧
    (Model.get_simobservable eigF p).2.2 = 0 / 0 ∧
    0 ≤ maxEigvecs (eigF (Model.construct_jac p)).2 (Fin.last 4) ∧
    ¬ (0 < maxEigvecs (eigF (Model.construct_jac p)).2 (Fin.last 4)) ∧
    maxEigvecs (eigF2 (Model2.construct_jac q)).2 = 0 ∧
    (Model2.get_simobservable eigF2 q).2.1 = 0 / 0 ∧
    (Model2.get_simobservable eigF2 q).2.2 = 0 / 0 ∧
    0 ≤ maxEigvecs (eigF2 (Model2.construct_jac q)).2 (Fin.last 8) ∧
    ¬ (0 < maxEigvecs (eigF2 (Model2.construct_jac q)).2 (Fin.last 8)) := by
  have hz : ∀ i, maxEigvecs (eigF (Model.construct_jac p)).2 i = 0 := by
    intro i
    unfold maxEigvecs torchSign
    rw [h]
    norm_num
  have hz2 : ∀ i, maxEigvecs (eigF2 (Model2.construct_jac q)).2 i = 0 := by
    intro i
    unfold maxEigvecs torchSign
    rw [h2]
    norm_num
  refine ⟨funext hz, ?_, ?_, ?_, ?_, funext hz2, ?_, ?_, ?_, ?_⟩
  · show maxEigvecs (eigF (Model.construct_jac p)).2 3 /
        maxEigvecs (eigF (Model.construct_jac p)).2 4 = 0 / 0
    rw [hz, hz]
  · show maxEigvecs (eigF (Model.construct_jac p)).2 3 /
        (maxEigvecs (eigF (Model.construct_jac p)).2 2 +
          maxEigvecs (eigF (Model.construct_jac p)).2 1) = 0 / 0
    rw [hz, hz, hz, add_zero]
  · rw [hz]
  · rw [hz]
    norm_num
  · show maxEigvecs (eigF2 (Model2.construct_jac q)).2 5 /
        maxEigvecs (eigF2 (Model2.construct_jac q)).2 6 = 0 / 0
    rw [hz2, hz2]
  · show maxEigvecs (eigF2 (Model2.construct_jac q)).2 5 /
        (maxEigvecs (eigF2 (Model2.construct_jac q)).2 3 +
          maxEigvecs (eigF2 (Model2.construct_jac q)).2 4) = 0 / 0
    rw [hz2, hz2, hz2, add_zero]
  · rw [hz2]
  · rw [hz2]
    norm_num

/-- Witness for C9: an eigendecomposition output whose dominant
eigenvector is `(1,1,1,1,0)` (last coordinate exactly 0) makes the base
`dec_by_rec` observable a `0 / 0` form; the all-zero output does the same
for the extended variant. -/
theorem sign_fix_zero_last_witness :
    (Model.get_simobservable
      (fun _ => (0, Matrix.of (fun i _ => if i = (4 : Fin 5) then 0 else 1)))
      onesParams).2.1 = 0 / 0 ∧
    (Model2.get_simobservable (fun _ => (0, 0)) onesParams2).2.1 = 0 / 0 := by
  have h := sign_fix_zero_last
    (fun _ => (0, Matrix.of (fun i _ => if i = (4 : Fin 5) then 0 else 1)))
    onesParams (by norm_num [show Fin.last 4 = 4 from rfl]) (fun _ => (0, 0)) onesParams2 rfl
  exact ⟨h.2.1, h.2.2.2.2.2.2.1⟩

/-- Modelled from the spec: the contract of the differentiable
eigendecomposition `eig` in `utils.eig`, which is not among the sources
under verification.  Per the specification, the forward pass is a standard
real eigendecomposition whose eigenvalues are returned sorted ascending
(callers rely on the last entry being the largest); accordingly the
returned value vector is monotone and every (rational) eigenvalue of the
input matrix occurs among the returned values. -/
def eigContract {n : ℕ} (K : Matrix (Fin n) (Fin n) ℚ) (vals : Fin n → ℚ) : Prop :=
  (∀ i j : Fin n, i ≤ j → vals i ≤ vals j) ∧
  (∀ x : ℚ, (∃ v, v ≠ 0 ∧ K.mulVec v = x • v) → ∃ i, vals i = x)

/-- C10: for strictly positive parameters, the terminal columns of the
base rate matrix (`dec`, `rec`) and of the extended rate matrix
(`dec_conf`, `rec_conf` and the two padding columns), as well as the two
padding rows, are identically zero; hence `0` is an eigenvalue of either
matrix (witnessed by the corresponding basis vector), and the reported
`gradient` observable — the last entry of the ascending-sorted eigenvalue
vector — is never negative. -/
theorem growth_rate_nonneg (p : Params) (hp : p.allPos) (vals : Fin 5 → ℚ)
    (hc : eigContract (Model.construct_jac p) vals)
    (q : Params2) (hq : q.allPos) (vals2 : Fin 9 → ℚ)
    (hc2 : eigContract (Model2.construct_jac q) vals2) :
    (∀ i, Model.construct_jac p i 3 = 0 ∧ Model.construct_jac p i 4 = 0) ∧
    (∃ v, v ≠ 0 ∧ (Model.construct_jac p).mulVec v = (0 : ℚ) • v) ∧
    0 ≤ vals (Fin.last 4) ∧
    (∀ i, Model2.construct_jac q i 5 = 0 ∧ Model2.construct_jac q i 6 = 0 ∧
      Model2.construct_jac q i 7 = 0 ∧ Model2.construct_jac q i 8 = 0 ∧
      Model2.construct_jac q 7 i = 0 ∧ Model2.construct_jac q 8 i = 0) ∧
    (∃ v, v ≠ 0 ∧ (Model2.construct_jac q).mulVec v = (0 : ℚ) • v) ∧
    0 ≤ vals2 (Fin.last 8) := by
  have hcols : ∀ i, Model.construct_jac p i 3 = 0 ∧ Model.construct_jac p i 4 = 0 := by
    intro i
    fin_cases i <;> exact ⟨rfl, rfl⟩
  have hcols2 : ∀ i, Model2.construct_jac q i 5 = 0 ∧ Model2.construct_jac q i 6 = 0 ∧
      Model2.construct_jac q i 7 = 0 ∧ Model2.construct_jac q i 8 = 0 ∧
      Model2.construct_jac q 7 i = 0 ∧ Model2.construct_jac q 8 i = 0 := by
    intro i
    fin_cases i <;> exact ⟨rfl, rfl, rfl, rfl, rfl, rfl⟩
  have hzero : ∃ v, v ≠ 0 ∧ (Model.construct_jac p).mulVec v = (0 : ℚ) • v := by
    refine ⟨Pi.single 3 1, ?_, ?_⟩
    · intro hv
      have h1 := congrFun hv 3
      simp at h1
    · rw [Matrix.mulVec_single, zero_smul]
      funext i
      rw [mul_one]
      exact (hcols i).1
  have hzero2 : ∃ v, v ≠ 0 ∧ (Model2.construct_jac q).mulVec v = (0 : ℚ) • v := by
    refine ⟨Pi.single 5 1, ?_, ?_⟩
    · intro hv
      have h1 := congrFun hv 5
      simp at h1
    · rw [Matrix.mulVec_single, zero_smul]
      funext i
      rw [mul_one]
      exact (hcols2 i).1
  refine ⟨hcols, hzero, ?_, hcols2, hzero2, ?_⟩
  · obtain ⟨i, hi⟩ := hc.2 0 hzero
    calc (0 : ℚ) = vals i := hi.symm
    _ ≤ vals (Fin.last 4) := hc.1 i (Fin.last 4) (Fin.le_last i)
  · obtain ⟨i, hi⟩ := hc2.2 0 hzero2
    calc (0 : ℚ) = vals2 i := hi.symm
    _ ≤ vals2 (Fin.last 8) := hc2.1 i (Fin.last 8) (Fin.le_last i)

/-- At the all-ones base parameter vector, every rational eigenvalue of the
5x5 rate matrix lies in `{0, -1, -2}` (solving the eigenvector equations
row by row). -/
theorem ratEigenvalues_ones_base : ∀ x : ℚ, (∃ v, v ≠ 0 ∧ (Model.construct_jac onesParams).mulVec v = x • v) →
    x = 0 ∨ x = -1 ∨ x = -2 := by
  rintro x ⟨v, hv, he⟩
  by_contra hcon
  push_neg at hcon
  obtain ⟨hx0, hx1, hx2⟩ := hcon
  have e0 := congrFun he 0
  have e1 := congrFun he 1
  have e2 := congrFun he 2
  have e3 := congrFun he 3
  have e4 := congrFun he 4
  simp [Matrix.mulVec, Matrix.dotProduct, Fin.sum_univ_five, Model.construct_jac, onesParams,
    Pi.smul_apply, smul_eq_mul] at e0 e1 e2 e3 e4
  -- solve the linear system assuming x not in {0, -1, -2}
  have hv1 : v 1 = 0 := by
    rcases mul_eq_zero.mp (show (x + 1) * v 1 = 0 by linarith) with h | h
    · exact absurd (by linarith) hx1
    · exact h
  have hv3 : v 3 = 0 := by
    rcases mul_eq_zero.mp (show x * v 3 = 0 by linarith) with h | h
    · exact absurd h hx0
    · exact h
  have hv0 : v 0 = 0 := by
    have h02 : v 0 = (x + 1) * v 2 := by linarith [e2]
    have h20 : v 2 = (x + 1) * v 0 := by linarith [e0, hv1]
    have hsq : v 0 = (x + 1) * ((x + 1) * v 0) := by
      calc v 0 = (x + 1) * v 2 := h02
      _ = (x + 1) * ((x + 1) * v 0) := by rw [h20]
    have key : v 0 * (x * (x + 2)) = 0 := by linear_combination -hsq
    rcases mul_eq_zero.mp key with h | h
    · exact h
    · rcases mul_eq_zero.mp h with h2 | h2
      · exact absurd h2 hx0
      · exact absurd (by linarith) hx2
  have hv2 : v 2 = 0 := by
    rcases mul_eq_zero.mp (show (x + 1) * v 2 = 0 by linarith [e2]) with h | h
    · exact absurd (by linarith) hx1
    · exact h
  have hv4 : v 4 = 0 := by
    rcases mul_eq_zero.mp (show x * v 4 = 0 by linarith [e4, hv2]) with h | h
    · exact absurd h hx0
    · exact h
  apply hv
  funext i
  fin_cases i
  · exact hv0
  · exact hv1
  · exact hv2
  · exact hv3
  · exact hv4

set_option maxHeartbeats 2000000 in
/-- At the all-ones extended parameter vector, every rational eigenvalue of
the 9x9 rate matrix lies in `{0, -1, -2}`. -/
theorem ratEigenvalues_ones_ext : ∀ x : ℚ, (∃ v, v ≠ 0 ∧ (Model2.construct_jac onesParams2).mulVec v = x • v) →
    x = 0 ∨ x = -1 ∨ x = -2 := by
  rintro x ⟨v, hv, he⟩
  by_contra hcon
  push_neg at hcon
  obtain ⟨hx0, hx1, hx2⟩ := hcon
  have hrow : ∀ i, ∑ j, Model2.construct_jac onesParams2 i j * v j = x * v i := fun i => congrFun he i
  have r0 := hrow 0
  have r1 := hrow 1
  have r2 := hrow 2
  have r3 := hrow 3
  have r4 := hrow 4
  have r5 := hrow 5
  have r6 := hrow 6
  have r7 := hrow 7
  have r8 := hrow 8
  rw [sum_fin_nine] at r0 r1 r2 r3 r4 r5 r6 r7 r8
  have e0 : -1 / (1 : ℚ) * v 0 + 1 * v 1 + 1 * v 2 + 1 * v 3 + 1 * v 4 + 0 * v 5 + 0 * v 6 +
      0 * v 7 + 0 * v 8 = x * v 0 := r0
  have e1 : (1 - 1) / (1 : ℚ) * v 0 + (-1 / 1 - 1 / 1) * v 1 + 0 * v 2 + 0 * v 3 + 0 * v 4 +
      0 * v 5 + 0 * v 6 + 0 * v 7 + 0 * v 8 = x * v 1 := r1
  have e2 : 1 / (1 : ℚ) * v 0 + 0 * v 1 + (-1 / 1 - 1 / 1) * v 2 + 0 * v 3 + 0 * v 4 +
      0 * v 5 + 0 * v 6 + 0 * v 7 + 0 * v 8 = x * v 2 := r2
  have e3 : (0 : ℚ) * v 0 + 1 / 1 * v 1 + 0 * v 2 + -1 / 1 * v 3 + 0 * v 4 + 0 * v 5 + 0 * v 6 +
      0 * v 7 + 0 * v 8 = x * v 3 := r3
  have e4 : (0 : ℚ) * v 0 + 0 * v 1 + 1 / 1 * v 2 + 0 * v 3 + -1 / 1 * v 4 + 0 * v 5 + 0 * v 6 +
      0 * v 7 + 0 * v 8 = x * v 4 := r4
  have e5 : (0 : ℚ) * v 0 + 0 * v 1 + 0 * v 2 + 1 / 1 * v 3 + 0 * v 4 + 0 * v 5 + 0 * v 6 +
      0 * v 7 + 0 * v 8 = x * v 5 := r5
  have e6 : (0 : ℚ) * v 0 + 0 * v 1 + 0 * v 2 + 0 * v 3 + 1 / 1 * v 4 + 0 * v 5 + 0 * v 6 +
      0 * v 7 + 0 * v 8 = x * v 6 := r6
  have e7 : (0 : ℚ) * v 0 + 0 * v 1 + 0 * v 2 + 0 * v 3 + 0 * v 4 + 0 * v 5 + 0 * v 6 +
      0 * v 7 + 0 * v 8 = x * v 7 := r7
  have e8 : (0 : ℚ) * v 0 + 0 * v 1 + 0 * v 2 + 0 * v 3 + 0 * v 4 + 0 * v 5 + 0 * v 6 +
      0 * v 7 + 0 * v 8 = x * v 8 := r8
  have hv1 : v 1 = 0 := by
    rcases mul_eq_zero.mp (show (x + 2) * v 1 = 0 by linarith) with h | h
    · exact absurd (by linarith) hx2
    · exact h
  have hv3 : v 3 = 0 := by
    rcases mul_eq_zero.mp (show (x + 1) * v 3 = 0 by linarith) with h | h
    · exact absurd (by linarith) hx1
    · exact h
  have hv5 : v 5 = 0 := by
    rcases mul_eq_zero.mp (show x * v 5 = 0 by linarith) with h | h
    · exact absurd h hx0
    · exact h
  have hv7 : v 7 = 0 := by
    rcases mul_eq_zero.mp (show x * v 7 = 0 by linarith) with h | h
    · exact absurd h hx0
    · exact h
  have hv8 : v 8 = 0 := by
    rcases mul_eq_zero.mp (show x * v 8 = 0 by linarith) with h | h
    · exact absurd h hx0
    · exact h
  have h02 : v 0 = (x + 2) * v 2 := by linarith
  have h24 : v 2 = (x + 1) * v 4 := by linarith
  have h0sum : (x + 1) * v 0 = v 2 + v 4 := by linarith
  have hkey : v 4 * (x * ((x + 2) * (x + 2))) = 0 := by
    linear_combination h0sum - (x + 1) * h02 - (x ^ 2 + 3 * x + 1) * h24
  have hv4 : v 4 = 0 := by
    rcases mul_eq_zero.mp hkey with h | h
    · exact h
    · rcases mul_eq_zero.mp h with h2 | h2
      · exact absurd h2 hx0
      · rcases mul_eq_zero.mp h2 with h3 | h3
        · exact absurd (by linarith) hx2
        · exact absurd (by linarith) hx2
  have hv2 : v 2 = 0 := by rw [h24, hv4, mul_zero]
  have hv0 : v 0 = 0 := by rw [h02, hv2, mul_zero]
  have hv6 : v 6 = 0 := by
    rcases mul_eq_zero.mp (show x * v 6 = 0 by linarith) with h | h
    · exact absurd h hx0
    · exact h
  apply hv
  funext i
  fin_cases i
  · exact hv0
  · exact hv1
  · exact hv2
  · exact hv3
  · exact hv4
  · exact hv5
  · exact hv6
  · exact hv7
  · exact hv8

/-- Witness for C10 at the all-ones parameter vectors, with eigenvalue
vectors `(-2,-1,0,0,0)` and `(-2,-2,-2,-1,0,0,0,0,0)` satisfying the
modelled eigendecomposition contract: the reported gradient (last sorted
eigenvalue) is non-negative. -/
theorem growth_rate_nonneg_witness :
    onesParams.allPos ∧ onesParams2.allPos ∧
      0 ≤ (![-2, -1, 0, 0, 0] : Fin 5 → ℚ) (Fin.last 4) ∧
      0 ≤ (![-2, -2, -2, -1, 0, 0, 0, 0, 0] : Fin 9 → ℚ) (Fin.last 8) := by
  have hc : eigContract (Model.construct_jac onesParams) ![-2, -1, 0, 0, 0] := by
    refine ⟨by decide, fun x hx => ?_⟩
    rcases ratEigenvalues_ones_base x hx with h | h | h
    · exact ⟨2, by rw [h]; rfl⟩
    · exact ⟨1, by rw [h]; rfl⟩
    · exact ⟨0, by rw [h]; rfl⟩
  have hc2 : eigContract (Model2.construct_jac onesParams2) ![-2, -2, -2, -1, 0, 0, 0, 0, 0] := by
    refine ⟨by decide, fun x hx => ?_⟩
    rcases ratEigenvalues_ones_ext x hx with h | h | h
    · exact ⟨4, by rw [h]; rfl⟩
    · exact ⟨3, by rw [h]; rfl⟩
    · exact ⟨0, by rw [h]; rfl⟩
  have hmain := growth_rate_nonneg onesParams (by decide) ![-2, -1, 0, 0, 0] hc
    onesParams2 (by decide) ![-2, -2, -2, -1, 0, 0, 0, 0, 0] hc2
  exact ⟨by decide, by decide, hmain.2.2.1, hmain.2.2.2.2.2⟩

/-- A posterior sample set for the base model: one ordered sequence of
draws per parameter name (the pickled `samples` dict). -/
structure Samples where
  t_incub : List ℚ
  inf_rate : List ℚ
  surv_rate : List ℚ
  t_dec : List ℚ
  t_rec : List ℚ
deriving DecidableEq

/-- numpy boolean-mask indexing `xs[mask]`: keep the entries whose mask
value is true, in order. -/
def boolIndex (xs : List ℚ) (mask : List Bool) : List ℚ :=
  (List.zip xs mask).filterMap (fun ab => if ab.2 then some ab.1 else none)

/-- The accumulation loop of `Model.filter_samples`:
`idx = idx * filters_dict[key](samples)` over the requested keys, where a
missing dictionary key raises (KeyError). -/
def applyFilters (s : Samples) (dict : List (String × (Samples → List Bool))) :
    List String → List Bool → Except Unit (List Bool)
  | [], idx => Except.ok idx
  | k :: ks, idx =>
    match dict.lookup k with
    | some f => applyFilters s dict ks (List.zipWith (fun a b => a && b) idx (f s))
    | none => Except.error ()

/-- `Model.filter_samples`: start from the all-true mask
`samples[paramnames[0]] > -inf` (true at every finite rational draw),
conjoin the mask of every requested predicate, and boolean-index every
parameter's sequence with the final mask.  A missing predicate name is a
lookup error and no result is produced (the input, being a value, is
unchanged). -/
def Model.filter_samples (s : Samples) (dict : List (String × (Samples → List Bool)))
    (keys : List String) : Except Unit Samples :=
  match applyFilters s dict keys (s.t_incub.map (fun _ => true)) with
  | Except.error e => Except.error e
  | Except.ok idx =>
      Except.ok ⟨boolIndex s.t_incub idx, boolIndex s.inf_rate idx, boolIndex s.surv_rate idx,
        boolIndex s.t_dec idx, boolIndex s.t_rec idx⟩

/-- Spec-side: draw `i` passes when every listed predicate's boolean mask
holds at `i`. -/
def allPredsHold (s : Samples) (dict : List (String × (Samples → List Bool)))
    (keys : List String) (i : ℕ) : Bool :=
  keys.all (fun k =>
    match dict.lookup k with
    | some f => (f s).getD i false
    | none => false)

/-- Spec-side: the conjunction mask over `L` draws. -/
def conjMask (s : Samples) (dict : List (String × (Samples → List Bool)))
    (keys : List String) (L : ℕ) : List Bool :=
  (List.range L).map (allPredsHold s dict keys)

/-- Boolean indexing with a mask of matching length keeps exactly
`mask.count true` entries. -/
theorem boolIndex_length (xs : List ℚ) (mask : List Bool) (h : xs.length = mask.length) :
    (boolIndex xs mask).length = mask.count true := by
  induction xs generalizing mask with
  | nil =>
    cases mask with
    | nil => rfl
    | cons b t => exact absurd h (by simp)
  | cons a xs ih =>
    cases mask with
    | nil => exact absurd h (by simp)
    | cons b t =>
      have ht : xs.length = t.length := by simpa using h
      cases b with
      | false =>
        simp only [boolIndex, List.zip_cons_cons, List.filterMap_cons]
        simpa [boolIndex, List.count_cons] using ih t ht
      | true =>
        simp only [boolIndex, List.zip_cons_cons, List.filterMap_cons]
        simpa [boolIndex, List.count_cons] using ih t ht

/-- Elementwise conjunction of a mask generated over `range` with a plain
mask list. -/
theorem zipWith_and_range (l : List Bool) : ∀ g : ℕ → Bool,
    List.zipWith (fun a b => a && b) ((List.range l.length).map g) l =
      (List.range l.length).map (fun i => g i && l.getD i false) := by
  induction l with
  | nil => intro g; rfl
  | cons a t ih =>
    intro g
    rw [List.length_cons, List.range_succ_eq_map]
    simp only [List.map_cons, List.map_map, List.zipWith_cons_cons]
    rw [ih (g ∘ Nat.succ)]
    simp [Function.comp, List.getD_cons_succ, List.getD_cons_zero]

/-- Running the filter loop on a `range`-generated accumulator conjoins
the predicates pointwise, provided every key is present with a mask of
the right length. -/
theorem applyFilters_ok (s : Samples) (dict : List (String × (Samples → List Bool))) :
    ∀ (keys : List String) (g : ℕ → Bool) (L : ℕ),
    (∀ k ∈ keys, ∃ f, dict.lookup k = some f ∧ (f s).length = L) →
    applyFilters s dict keys ((List.range L).map g) =
      Except.ok ((List.range L).map (fun i => g i && allPredsHold s dict keys i)) := by
  intro keys
  induction keys with
  | nil =>
    intro g L _
    simp [applyFilters, allPredsHold]
  | cons k ks ih =>
    intro g L hk
    obtain ⟨f, hf, hflen⟩ := hk k (List.mem_cons_self k ks)
    have hrest : ∀ k2 ∈ ks, ∃ f2, dict.lookup k2 = some f2 ∧ (f2 s).length = L := by
      intro k2 hk2
      exact hk k2 (List.mem_cons_of_mem k hk2)
    simp only [applyFilters, hf]
    rw [show L = (f s).length from hflen.symm, zipWith_and_range (f s) g,
      ih (fun i => g i && (f s).getD i false) (f s).length
        (by rw [hflen]; exact hrest)]
    congr 1
    apply List.map_congr_left
    intro i _
    simp [allPredsHold, hf, Bool.and_assoc]

/-- Reading a boolean list back off by index over its range preserves the
count of `true`. -/
theorem count_range_getD (l : List Bool) :
    ((List.range l.length).map (fun i => l.getD i false)).count true = l.count true := by
  induction l with
  | nil => rfl
  | cons a t ih =>
    rw [List.length_cons, List.range_succ_eq_map]
    simp only [List.map_cons, List.map_map, List.count_cons, List.getD_cons_zero]
    rw [show ((fun i => (a :: t).getD i false) ∘ Nat.succ) = fun i => t.getD i false from rfl, ih]

/-- C6: when every parameter sequence has length `L` and every requested
predicate is present with a length-`L` mask, `filter_samples` succeeds and
returns, for every parameter, exactly the subsequence of draws at whose
indices every listed predicate holds; all five returned sequences have the
same length (the number of passing draws), and with a single predicate on
an `L = 1000`-draw set whose mask holds exactly 400 times, every returned
sequence has length exactly 400. -/
theorem filter_samples_spec (s : Samples) (dict : List (String × (Samples → List Bool)))
    (keys : List String) (L : ℕ)
    (h1 : s.t_incub.length = L) (h2 : s.inf_rate.length = L) (h3 : s.surv_rate.length = L)
    (h4 : s.t_dec.length = L) (h5 : s.t_rec.length = L)
    (hk : ∀ k ∈ keys, ∃ f, dict.lookup k = some f ∧ (f s).length = L) :
    Model.filter_samples s dict keys =
      Except.ok ⟨boolIndex s.t_incub (conjMask s dict keys L),
        boolIndex s.inf_rate (conjMask s dict keys L),
        boolIndex s.surv_rate (conjMask s dict keys L),
        boolIndex s.t_dec (conjMask s dict keys L),
        boolIndex s.t_rec (conjMask s dict keys L)⟩ ∧
    (boolIndex s.t_incub (conjMask s dict keys L)).length = (conjMask s dict keys L).count true ∧
    (boolIndex s.inf_rate (conjMask s dict keys L)).length = (conjMask s dict keys L).count true ∧
    (boolIndex s.surv_rate (conjMask s dict keys L)).length = (conjMask s dict keys L).count true ∧
    (boolIndex s.t_dec (conjMask s dict keys L)).length = (conjMask s dict keys L).count true ∧
    (boolIndex s.t_rec (conjMask s dict keys L)).length = (conjMask s dict keys L).count true ∧
    (∀ k f, keys = [k] → dict.lookup k = some f → L = 1000 → (f s).count true = 400 →
      (conjMask s dict keys L).count true = 400) := by
  have hmasklen : (conjMask s dict keys L).length = L := by
    simp [conjMask]
  have hstart : s.t_incub.map (fun _ => true) = (List.range L).map (fun _ => true) := by
    rw [List.map_const', List.map_const', List.length_range, h1]
  have hrun := applyFilters_ok s dict keys (fun _ => true) L hk
  have hmain : Model.filter_samples s dict keys =
      Except.ok ⟨boolIndex s.t_incub (conjMask s dict keys L),
        boolIndex s.inf_rate (conjMask s dict keys L),
        boolIndex s.surv_rate (conjMask s dict keys L),
        boolIndex s.t_dec (conjMask s dict keys L),
        boolIndex s.t_rec (conjMask s dict keys L)⟩ := by
    unfold Model.filter_samples
    rw [hstart, hrun]
    have : ((List.range L).map (fun i => (fun _ => true) i && allPredsHold s dict keys i)) =
        conjMask s dict keys L := by
      simp [conjMask]
    rw [this]
  refine ⟨hmain, ?_, ?_, ?_, ?_, ?_, ?_⟩
  · exact boolIndex_length _ _ (by rw [h1, hmasklen])
  · exact boolIndex_length _ _ (by rw [h2, hmasklen])
  · exact boolIndex_length _ _ (by rw [h3, hmasklen])
  · exact boolIndex_length _ _ (by rw [h4, hmasklen])
  · exact boolIndex_length _ _ (by rw [h5, hmasklen])
  · intro k f hkeys hf hL hcount
    subst hkeys
    have hlen : (f s).length = L := by
      obtain ⟨f2, hf2, hlen2⟩ := hk k (List.mem_cons_self k [])
      rw [hf] at hf2
      cases hf2
      exact hlen2
    have : conjMask s dict [k] L = (List.range L).map (fun i => (f s).getD i false) := by
      apply List.map_congr_left
      intro i _
      simp [allPredsHold, hf]
    rw [this, ← hlen, count_range_getD, hcount]

/-- Witness for C6: a 2-draw sample set with the `inf_rate < 0.5`
predicate of the script (mask `[false, true]`): the draw at index 1 of
every parameter survives, keeping per-draw alignment. -/
theorem filter_samples_spec_witness :
    Model.filter_samples ⟨[1, 2], [1, 0], [3, 4], [5, 6], [7, 8]⟩
        [("low_infection_rate", fun s : Samples => s.inf_rate.map (fun v => decide (v < Rat.divInt 1 2)))]
        ["low_infection_rate"] = Except.ok ⟨[2], [0], [4], [6], [8]⟩ := by
  have hk : ∀ k ∈ (["low_infection_rate"] : List String),
      ∃ f, (([("low_infection_rate",
          fun s : Samples => s.inf_rate.map (fun v => decide (v < Rat.divInt 1 2)))] :
            List (String × (Samples → List Bool))).lookup k) = some f ∧
        (f ⟨[1, 2], [1, 0], [3, 4], [5, 6], [7, 8]⟩).length = 2 := by
    intro k hkk
    rw [List.mem_singleton] at hkk
    subst hkk
    exact ⟨_, rfl, rfl⟩
  have h := filter_samples_spec ⟨[1, 2], [1, 0], [3, 4], [5, 6], [7, 8]⟩ _ _ 2
    rfl rfl rfl rfl rfl hk
  rw [h.1]
  simp only [Except.ok.injEq]
  decide

/-- C8: a requested predicate name that is not a key of the predicate
dictionary makes `filter_samples` fail with a lookup error: no partial
result is produced (the error carries no sample set) and, the function
being pure, the input sample set is unchanged. -/
theorem filter_samples_missing_key (s : Samples) (dict : List (String × (Samples → List Bool)))
    (keys : List String) (k : String) (hmem : k ∈ keys) (hnone : dict.lookup k = none) :
    Model.filter_samples s dict keys = Except.error () := by
  have herr : ∀ (ks : List String), k ∈ ks → ∀ acc, applyFilters s dict ks acc = Except.error () := by
    intro ks
    induction ks with
    | nil => intro h; cases h
    | cons k2 t ih =>
      intro hmem2 acc
      rcases List.mem_cons.mp hmem2 with heq | hmemt
      · subst heq
        simp [applyFilters, hnone]
      · cases hl : dict.lookup k2 with
        | none => simp [applyFilters, hl]
        | some f =>
          simp only [applyFilters, hl]
          exact ih hmemt _
  unfold Model.filter_samples
  rw [herr keys hmem]

/-- Witness for C8: asking for the script's `low_infection_rate` filter
with an empty predicate dictionary is a lookup error. -/
theorem filter_samples_missing_key_witness :
    Model.filter_samples ⟨[1], [1], [1], [1], [1]⟩ [] ["low_infection_rate"] =
      Except.error () :=
  filter_samples_missing_key _ _ _ "low_infection_rate" (List.mem_singleton.mpr rfl) rfl

/-- The `i`-th draw of a sample set, rebuilt as a parameter vector
(`params = {name: samples[name][i] for name in paramnames}`). -/
def drawParams (s : Samples) (i : ℕ) : Params :=
  ⟨s.t_incub.getD i 0, s.inf_rate.getD i 0, s.surv_rate.getD i 0,
   s.t_dec.getD i 0, s.t_rec.getD i 0⟩

/-- `Model.sample_observations`: replay every stored draw through
`get_simobservable` and transpose (`zip(*simobs)`) into one row per
observable (`np.asarray`, shape `(nobs, nsamples)`). -/
def Model.sample_observations
    (eigF : Matrix (Fin 5) (Fin 5) ℚ → (Fin 5 → ℚ) × Matrix (Fin 5) (Fin 5) ℚ)
    (s : Samples) : List (List ℚ) :=
  let nsamples := s.t_incub.length
  let simobs := (List.range nsamples).map (fun i => Model.get_simobservable eigF (drawParams s i))
  [simobs.map (fun t => t.1), simobs.map (fun t => t.2.1), simobs.map (fun t => t.2.2)]

/-- C7: on an `N`-draw sample set (all sequences of length `N`),
`sample_observations` has shape 3 x `N` and its `i`-th column is exactly
the observable triple of `get_simobservable` on the `i`-th draw; in
particular on a 1-draw sample set it returns exactly the triple of the
single draw, one singleton row per observable. -/
theorem sample_observations_spec
    (eigF : Matrix (Fin 5) (Fin 5) ℚ → (Fin 5 → ℚ) × Matrix (Fin 5) (Fin 5) ℚ)
    (s : Samples) (N : ℕ)
    (h1 : s.t_incub.length = N) (h2 : s.inf_rate.length = N) (h3 : s.surv_rate.length = N)
    (h4 : s.t_dec.length = N) (h5 : s.t_rec.length = N) :
    (Model.sample_observations eigF s).length = 3 ∧
    (∀ row ∈ Model.sample_observations eigF s, row.length = N) ∧
    (∀ i, i < N →
      ((Model.sample_observations eigF s).getD 0 []).getD i 0 =
        (Model.get_simobservable eigF (drawParams s i)).1 ∧
      ((Model.sample_observations eigF s).getD 1 []).getD i 0 =
        (Model.get_simobservable eigF (drawParams s i)).2.1 ∧
      ((Model.sample_observations eigF s).getD 2 []).getD i 0 =
        (Model.get_simobservable eigF (drawParams s i)).2.2) ∧
    (∀ a b c d e : ℚ, s.t_incub = [a] → s.inf_rate = [b] → s.surv_rate = [c] →
      s.t_dec = [d] → s.t_rec = [e] →
      Model.sample_observations eigF s =
        [[(Model.get_simobservable eigF ⟨a, b, c, d, e⟩).1],
         [(Model.get_simobservable eigF ⟨a, b, c, d, e⟩).2.1],
         [(Model.get_simobservable eigF ⟨a, b, c, d, e⟩).2.2]]) := by
  have hcol : ∀ (proj : ℚ × ℚ × ℚ → ℚ) (i : ℕ), i < N →
      (((List.range s.t_incub.length).map
          (fun j => Model.get_simobservable eigF (drawParams s j))).map proj).getD i 0 =
        proj (Model.get_simobservable eigF (drawParams s i)) := by
    intro proj i hi
    have hi2 : i < (((List.range s.t_incub.length).map
        (fun j => Model.get_simobservable eigF (drawParams s j))).map proj).length := by
      simp [h1, hi]
    rw [List.getD_eq_getElem _ _ hi2]
    simp [h1]
  refine ⟨rfl, ?_, ?_, ?_⟩
  · intro row hrow
    simp only [Model.sample_observations, List.mem_cons, List.not_mem_nil, or_false] at hrow
    rcases hrow with h | h | h <;> subst h <;> simp [h1]
  · intro i hi
    exact ⟨hcol (fun t => t.1) i hi, hcol (fun t => t.2.1) i hi, hcol (fun t => t.2.2) i hi⟩
  · intro a b c d e ha hb hc hd he
    obtain ⟨l1, l2, l3, l4, l5⟩ := s
    simp only at ha hb hc hd he
    subst ha hb hc hd he
    rfl

/-- Witness for C7: a 1-draw sample set with all draws equal to 1 and a
concrete (identity-like) eigendecomposition output. -/
theorem sample_observations_spec_witness :
    Model.sample_observations (fun M => ((fun _ => 0), M)) ⟨[1], [1], [1], [1], [1]⟩ =
      [[(Model.get_simobservable (fun M => ((fun _ => 0), M)) ⟨1, 1, 1, 1, 1⟩).1],
       [(Model.get_simobservable (fun M => ((fun _ => 0), M)) ⟨1, 1, 1, 1, 1⟩).2.1],
       [(Model.get_simobservable (fun M => ((fun _ => 0), M)) ⟨1, 1, 1, 1, 1⟩).2.2]] :=
  (sample_observations_spec (fun M => ((fun _ => 0), M)) ⟨[1], [1], [1], [1], [1]⟩ 1
    rfl rfl rfl rfl rfl).2.2.2 1 1 1 1 1 rfl rfl rfl rfl rfl

noncomputable def xmean (n : ℕ) : ℝ := (∑ i ∈ Finset.range n, (i : ℝ)) / n

noncomputable def ymean (n : ℕ) (y : ℕ → ℝ) : ℝ := (∑ i ∈ Finset.range n, y i) / n

noncomputable def sxx (n : ℕ) : ℝ := ∑ i ∈ Finset.range n, ((i : ℝ) - xmean n) ^ 2

noncomputable def sxy (n : ℕ) (y : ℕ → ℝ) : ℝ :=
  ∑ i ∈ Finset.range n, ((i : ℝ) - xmean n) * (y i - ymean n y)

noncomputable def ssr (n : ℕ) (y : ℕ → ℝ) (b a : ℝ) : ℝ :=
  ∑ i ∈ Finset.range n, (y i - (a + b * i)) ^ 2

theorem sum_x_sub_xmean (n : ℕ) (hn : n ≠ 0) :
    ∑ i ∈ Finset.range n, ((i : ℝ) - xmean n) = 0 := by
  have hn' : (n : ℝ) ≠ 0 := Nat.cast_ne_zero.mpr hn
  rw [Finset.sum_sub_distrib, Finset.sum_const, Finset.card_range, nsmul_eq_mul, xmean]
  field_simp

theorem sum_y_sub_ymean (n : ℕ) (y : ℕ → ℝ) (hn : n ≠ 0) :
    ∑ i ∈ Finset.range n, (y i - ymean n y) = 0 := by
  have hn' : (n : ℝ) ≠ 0 := Nat.cast_ne_zero.mpr hn
  rw [Finset.sum_sub_distrib, Finset.sum_const, Finset.card_range, nsmul_eq_mul, ymean]
  field_simp

theorem sxx_pos (n : ℕ) (hn : 2 ≤ n) : 0 < sxx n := by
  have hnonneg : (0 : ℝ) ≤ sxx n :=
    Finset.sum_nonneg (fun i _ => sq_nonneg ((i : ℝ) - xmean n))
  rcases eq_or_lt_of_le hnonneg with h | h
  · exfalso
    unfold sxx at h
    have hall : ∀ i ∈ Finset.range n, ((i : ℝ) - xmean n) ^ 2 = 0 :=
      (Finset.sum_eq_zero_iff_of_nonneg
        (fun (i : ℕ) _ => sq_nonneg ((i : ℝ) - xmean n))).mp h.symm
    have h0 := hall 0 (Finset.mem_range.mpr (show 0 < n by omega))
    have h1 := hall 1 (Finset.mem_range.mpr (show 1 < n by omega))
    have h0' : ((0 : ℕ) : ℝ) - xmean n = 0 := by
      exact pow_eq_zero_iff (two_ne_zero) |>.mp h0
    have h1' : ((1 : ℕ) : ℝ) - xmean n = 0 := by
      exact pow_eq_zero_iff (two_ne_zero) |>.mp h1
    simp only [Nat.cast_zero, Nat.cast_one] at h0' h1'
    have : xmean n = 0 := by linarith
    rw [this] at h1'
    norm_num at h1'
  · exact h

theorem ssr_identity (n : ℕ) (y : ℕ → ℝ) (b a : ℝ) (hn2 : 2 ≤ n) :
    ssr n y b a = sxx n * (b - sxy n y / sxx n) ^ 2
      + n * (ymean n y - a - b * xmean n) ^ 2
      + ((∑ i ∈ Finset.range n, (y i - ymean n y) ^ 2) - (sxy n y) ^ 2 / sxx n) := by
  have hn0 : n ≠ 0 := by omega
  have hsxx : sxx n ≠ 0 := ne_of_gt (sxx_pos n hn2)
  have hsxx' : (∑ i ∈ Finset.range n, ((i : ℝ) - xmean n) ^ 2) ≠ 0 := hsxx
  have expand : ∀ i ∈ Finset.range n, (y i - (a + b * i)) ^ 2 =
      (y i - ymean n y) ^ 2 + b ^ 2 * ((i : ℝ) - xmean n) ^ 2
        + (ymean n y - a - b * xmean n) ^ 2
        - 2 * b * (((i : ℝ) - xmean n) * (y i - ymean n y))
        + 2 * (ymean n y - a - b * xmean n) * (y i - ymean n y)
        - 2 * b * (ymean n y - a - b * xmean n) * ((i : ℝ) - xmean n) := by
    intro i _
    ring
  rw [ssr, Finset.sum_congr rfl expand]
  simp only [Finset.sum_add_distrib, Finset.sum_sub_distrib, ← Finset.mul_sum,
    Finset.sum_const, Finset.card_range, nsmul_eq_mul]
  have hx : ∑ i ∈ Finset.range n, (i : ℝ) = n * xmean n := by
    rw [xmean]
    field_simp
  have hy : ∑ i ∈ Finset.range n, y i = n * ymean n y := by
    rw [ymean]
    field_simp
  rw [hx, hy]
  unfold sxx sxy
  field_simp
  ring

theorem ols_minimizes (n : ℕ) (y : ℕ → ℝ) (hn2 : 2 ≤ n) (b a : ℝ) :
    ssr n y (sxy n y / sxx n) (ymean n y - sxy n y / sxx n * xmean n) ≤ ssr n y b a := by
  have hsxx := sxx_pos n hn2
  rw [ssr_identity n y b a hn2,
    ssr_identity n y (sxy n y / sxx n) (ymean n y - sxy n y / sxx n * xmean n) hn2]
  have h1 : sxy n y / sxx n - sxy n y / sxx n = 0 := by ring
  have h2 : ymean n y - (ymean n y - sxy n y / sxx n * xmean n) - sxy n y / sxx n * xmean n = 0 := by
    ring
  rw [h1, h2]
  have hb : 0 ≤ sxx n * (b - sxy n y / sxx n) ^ 2 := by positivity
  have ha : 0 ≤ (n : ℝ) * (ymean n y - a - b * xmean n) ^ 2 := by positivity
  nlinarith

/-- Modelled from the spec: `np.polyfit(x, logy, 1)` performs the ordinary
least-squares straight-line fit of the data against `x = 0..n-1` and
returns `(slope, intercept)`; given here by the standard normal-equation
closed form, with the defining minimization property proved in
`gradient_observable_ols`. -/
noncomputable def polyfit1 (n : ℕ) (y : ℕ → ℝ) : ℝ × ℝ :=
  (sxy n y / sxx n, ymean n y - sxy n y / sxx n * xmean n)

/-- The growth-rate part of `Model.get_observable`: slice the infectious
series at `day_offset`, fit the `log` counts against the day index
`x = np.arange(ndays)`, and report `(gradient, std_gradient)` where
`std_gradient = sqrt(1/(n-2) * sum((logy - logyfit)**2) / sum((x - mean(x))**2))`
with `logyfit = offset + gradient * x`. -/
noncomputable def Model.gradient_observable (ntotal day_offset : ℕ)
    (ninfectious : ℕ → ℝ) : ℝ × ℝ :=
  let n := ntotal - day_offset
  let logy : ℕ → ℝ := fun i => Real.log (ninfectious (day_offset + i))
  let g := (polyfit1 n logy).1
  let c := (polyfit1 n logy).2
  let logyfit : ℕ → ℝ := fun i => c + g * i
  (g, Real.sqrt (1 / ((n : ℝ) - 2) *
    (∑ i ∈ Finset.range n, (logy i - logyfit i) ^ 2) /
    (∑ i ∈ Finset.range n, ((i : ℝ) - xmean n) ^ 2)))

/-- C5: with at least 3 days after the offset, the reported growth-rate
mean is the ordinary-least-squares slope of log(infectious) against the
day index 0..n-1 over the rows from the offset onward — it is the
normal-equation slope and, with its intercept, minimizes the sum of
squared residuals among all lines — and the reported standard deviation
is `sqrt((1/(n-2)) * sum(residual^2) / sum((x - mean x)^2))`, the
simple-linear-regression slope standard error. -/
theorem gradient_observable_ols (ntotal day_offset : ℕ) (ninf : ℕ → ℝ)
    (hn : 3 ≤ ntotal - day_offset) :
    (Model.gradient_observable ntotal day_offset ninf).1 =
      sxy (ntotal - day_offset) (fun i => Real.log (ninf (day_offset + i))) /
        sxx (ntotal - day_offset) ∧
    (∀ b a : ℝ,
      ssr (ntotal - day_offset) (fun i => Real.log (ninf (day_offset + i)))
          (Model.gradient_observable ntotal day_offset ninf).1
          (polyfit1 (ntotal - day_offset) (fun i => Real.log (ninf (day_offset + i)))).2 ≤
        ssr (ntotal - day_offset) (fun i => Real.log (ninf (day_offset + i))) b a) ∧
    (Model.gradient_observable ntotal day_offset ninf).2 =
      Real.sqrt (1 / (((ntotal - day_offset : ℕ) : ℝ) - 2) *
        ssr (ntotal - day_offset) (fun i => Real.log (ninf (day_offset + i)))
          (Model.gradient_observable ntotal day_offset ninf).1
          (polyfit1 (ntotal - day_offset) (fun i => Real.log (ninf (day_offset + i)))).2 /
        sxx (ntotal - day_offset)) := by
  refine ⟨rfl, ?_, rfl⟩
  intro b a
  exact ols_minimizes (ntotal - day_offset)
    (fun i => Real.log (ninf (day_offset + i))) (by omega) b a

/-- Witness for C5: a 3-day series starting at offset 0. -/
theorem gradient_observable_ols_witness :
    3 ≤ 3 - 0 ∧
      (Model.gradient_observable 3 0 (fun _ => 1)).1 =
        sxy (3 - 0) (fun i => Real.log ((fun _ => (1 : ℝ)) (0 + i))) / sxx (3 - 0) :=
  ⟨by norm_num, (gradient_observable_ols 3 0 (fun _ => 1) (by norm_num)).1⟩
